import Mathlib

/-!
Shallow embedding of the MyTownGovt scraper (mytowngov_common.py,
mytowngov_board_scraper.py, mytowngov_homepage_scraper.py,
mytowngov_meeting_scraper.py, error_tracker.py) and proofs about the
fetch/cache pipeline, the meeting deduplicator, the date-format cascade,
the homepage extractor, the related-meeting traversal and the error tracker.

Python strings are modelled as Lean `String` (a list of characters); Python
`in` is substring containment, `strip` trims ASCII whitespace.  Exceptions
are modelled with `Except`; ambient wall-clock values (`datetime.now`, file
mtimes) are passed in explicitly.
-/

/-- ASCII whitespace as recognised by Python `str.strip` on the inputs that
occur on the scraped pages. -/
def isWsChar (c : Char) : Bool :=
  c = ' ' || c = '\t' || c = '\n' || c = '\r' || c = '\x0b' || c = '\x0c'

/-- Strip whitespace from both ends of a character list (Python `str.strip`). -/
def stripL (l : List Char) : List Char :=
  ((l.dropWhile isWsChar).reverse.dropWhile isWsChar).reverse

/-- Python `s.strip()`. -/
def pyStrip (s : String) : String := ⟨stripL s.data⟩

/-- Does `pat` start the list `l`? -/
def startsWithL : List Char → List Char → Bool
  | [], _ => true
  | _ :: _, [] => false
  | a :: as, b :: bs => a = b && startsWithL as bs

/-- Does `pat` occur as a contiguous sublist of `l`? -/
def containsL (pat : List Char) : List Char → Bool
  | [] => startsWithL pat []
  | c :: cs => startsWithL pat (c :: cs) || containsL pat cs

/-- Python `needle in hay` for strings. -/
def pyIn (needle hay : String) : Bool := containsL needle.data hay.data

/-- Lower-case a character list (ASCII). -/
def lowerL (l : List Char) : List Char := l.map Char.toLower

/-- Python `s.lower()`. -/
def pyLower (s : String) : String := ⟨lowerL s.data⟩

/-- Helper for Python `str.replace(old, "")` with `old` non-empty: scan left
to right; while `skip > 0` the scanner is inside a match being deleted;
at `skip = 0` a match of `pat` starts a deletion of `pat.length` characters. -/
def removeWithSkip (pat : List Char) : Nat → List Char → List Char
  | _, [] => []
  | n + 1, _ :: cs => removeWithSkip pat n cs
  | 0, c :: cs =>
    if startsWithL pat (c :: cs) then removeWithSkip pat (pat.length - 1) cs
    else c :: removeWithSkip pat 0 cs

/-- Python `s.replace(old, new)` with `new = ""` and `old` non-empty: delete
every non-overlapping occurrence of `old`, scanning left to right. -/
def removeAllL (pat l : List Char) : List Char :=
  if pat.isEmpty then l else removeWithSkip pat 0 l

/-- Python `s.replace(old, "")`. -/
def pyRemove (old s : String) : String := ⟨removeAllL old.data s.data⟩

/-- Python `s.replace('\n', ' ')`. -/
def replaceNlSpace (s : String) : String :=
  ⟨s.data.map (fun c => if c = '\n' then ' ' else c)⟩

/-- Value of a decimal digit character. -/
def digitVal (c : Char) : Nat := c.toNat - '0'.toNat

/-- Numeric value of a list of digit characters. -/
def digitsVal (l : List Char) : Nat := l.foldl (fun a c => a * 10 + digitVal c) 0

/-!  ## Model of `datetime.strptime` for the five formats used by
`BoardScraper._parse_date` (mytowngov_board_scraper.py lines 112-131). -/

/-- A naive `datetime` value as produced by `datetime.strptime`. -/
structure PyDateTime where
  year : Nat
  month : Nat
  day : Nat
  hour : Nat
  minute : Nat
  second : Nat
deriving DecidableEq, Repr

/-- One item of a compiled `strptime` format: a literal character, a run of
whitespace (CPython compiles whitespace in the format to `\s+`), or a `%x`
directive. -/
inductive FmtItem where
  | lit (c : Char)
  | ws
  | dir (c : Char)
deriving DecidableEq, Repr

/-- Compile a format string into items (`%x` directives, whitespace, literals). -/
def fmtItemsOf : List Char → Option (List FmtItem)
  | [] => some []
  | '%' :: [] => none
  | '%' :: c :: rest => (fmtItemsOf rest).map (FmtItem.dir c :: ·)
  | c :: rest =>
    (fmtItemsOf rest).map ((if isWsChar c then FmtItem.ws else FmtItem.lit c) :: ·)

/-- Fields collected while matching a format (CPython `_strptime` defaults:
year 1900, month 1, day 1, midnight). -/
structure ParsedVals where
  year : Nat := 1900
  month : Nat := 1
  day : Nat := 1
  hour : Nat := 0
  minute : Nat := 0
  second : Nat := 0
  hour12 : Option Nat := none
  pm : Option Bool := none
deriving Repr

/-- Take up to `n` leading decimal digits. -/
def takeDigits : Nat → List Char → List Char × List Char
  | 0, l => ([], l)
  | _ + 1, [] => ([], [])
  | n + 1, c :: cs =>
    if c.isDigit then
      let (ds, rest) := takeDigits n cs
      (c :: ds, rest)
    else ([], c :: cs)

/-- Read a bounded decimal number: up to `maxLen` digits (at least one),
value within `[lo, hi]` — the shape of CPython's digit regexes for
`%d`, `%m`, `%H`, `%I`, `%M`, `%S`. -/
def readNum (maxLen lo hi : Nat) (l : List Char) : Option (Nat × List Char) :=
  let (ds, rest) := takeDigits maxLen l
  if ds.isEmpty then none
  else
    let v := digitsVal ds
    if lo ≤ v && v ≤ hi then some (v, rest) else none

/-- Read exactly four digits (`%Y`). -/
def readYear (l : List Char) : Option (Nat × List Char) :=
  let (ds, rest) := takeDigits 4 l
  if ds.length = 4 then some (digitsVal ds, rest) else none

/-- Case-insensitively match `name` as a prefix, returning the rest. -/
def matchNameCI (name : List Char) (l : List Char) : Option (List Char) :=
  if startsWithL (lowerL name) (lowerL (l.take name.length)) && name.length ≤ l.length then
    some (l.drop name.length)
  else none

def monthAbbrevNames : List String :=
  ["Jan", "Feb", "Mar", "Apr", "May", "Jun", "Jul", "Aug", "Sep", "Oct", "Nov", "Dec"]

def monthFullNames : List String :=
  ["January", "February", "March", "April", "May", "June",
   "July", "August", "September", "October", "November", "December"]

/-- Match one name from a list (1-indexed result). -/
def matchMonth (names : List String) (l : List Char) (i : Nat := 1) :
    Option (Nat × List Char) :=
  match names with
  | [] => none
  | n :: rest =>
    match matchNameCI n.data l with
    | some r => some (i, r)
    | none => matchMonth rest l (i + 1)

/-- Timezone names accepted by `%Z` on the deployment host (US/Eastern plus
the always-accepted UTC/GMT) — CPython builds this set from `time.tzname`. -/
def tzNames : List String := ["UTC", "GMT", "EST", "EDT"]

def matchTz (l : List Char) : Option (List Char) :=
  (tzNames.filterMap (fun n => matchNameCI n.data l)).head?

/-- Match `%p` (AM/PM, case-insensitive). -/
def matchAmPm (l : List Char) : Option (Bool × List Char) :=
  match matchNameCI "PM".data l with
  | some r => some (true, r)
  | none =>
    match matchNameCI "AM".data l with
    | some r => some (false, r)
    | none => none

/-- Match compiled format items against the input; the whole input must be
consumed (`strptime` fails on unconverted trailing data). -/
def matchItems : List FmtItem → List Char → ParsedVals → Option ParsedVals
  | [], [], v => some v
  | [], _ :: _, _ => none
  | FmtItem.lit c :: items, d :: ds, v =>
    if c.toLower = d.toLower then matchItems items ds v else none
  | FmtItem.lit _ :: _, [], _ => none
  | FmtItem.ws :: items, ds, v =>
    let ds' := ds.dropWhile isWsChar
    if ds'.length < ds.length then matchItems items ds' v else none
  | FmtItem.dir 'b' :: items, ds, v =>
    match matchMonth monthAbbrevNames ds with
    | some (m, rest) => matchItems items rest { v with month := m }
    | none => none
  | FmtItem.dir 'B' :: items, ds, v =>
    match matchMonth monthFullNames ds with
    | some (m, rest) => matchItems items rest { v with month := m }
    | none => none
  | FmtItem.dir 'd' :: items, ds, v =>
    match readNum 2 1 31 ds with
    | some (n, rest) => matchItems items rest { v with day := n }
    | none => none
  | FmtItem.dir 'm' :: items, ds, v =>
    match readNum 2 1 12 ds with
    | some (n, rest) => matchItems items rest { v with month := n }
    | none => none
  | FmtItem.dir 'Y' :: items, ds, v =>
    match readYear ds with
    | some (n, rest) => matchItems items rest { v with year := n }
    | none => none
  | FmtItem.dir 'H' :: items, ds, v =>
    match readNum 2 0 23 ds with
    | some (n, rest) => matchItems items rest { v with hour := n }
    | none => none
  | FmtItem.dir 'I' :: items, ds, v =>
    match readNum 2 1 12 ds with
    | some (n, rest) => matchItems items rest { v with hour12 := some n }
    | none => none
  | FmtItem.dir 'M' :: items, ds, v =>
    match readNum 2 0 59 ds with
    | some (n, rest) => matchItems items rest { v with minute := n }
    | none => none
  | FmtItem.dir 'S' :: items, ds, v =>
    match readNum 2 0 61 ds with
    | some (n, rest) => matchItems items rest { v with second := n }
    | none => none
  | FmtItem.dir 'p' :: items, ds, v =>
    match matchAmPm ds with
    | some (b, rest) => matchItems items rest { v with pm := some b }
    | none => none
  | FmtItem.dir 'Z' :: items, ds, v =>
    match matchTz ds with
    | some rest => matchItems items rest v
    | none => none
  | FmtItem.dir _ :: _, _, _ => none

/-- Days in a month, with the Gregorian leap rule (`datetime` validates the
day of month after matching). -/
def daysInMonth (y m : Nat) : Nat :=
  if m = 2 then
    if y % 4 = 0 && (y % 100 ≠ 0 || y % 400 = 0) then 29 else 28
  else if m = 4 || m = 6 || m = 9 || m = 11 then 30
  else 31

/-- Resolve `%I`/`%p` into a 24h hour and validate the date, as
`datetime.strptime` does before constructing the result. -/
def finalizeVals (v : ParsedVals) : Option PyDateTime :=
  let hour :=
    match v.hour12, v.pm with
    | some h12, some true => if h12 = 12 then 12 else h12 + 12
    | some h12, some false => if h12 = 12 then 0 else h12
    | some h12, none => h12
    | none, _ => v.hour
  if 1 ≤ v.day && v.day ≤ daysInMonth v.year v.month then
    some ⟨v.year, v.month, v.day, hour, v.minute, v.second⟩
  else none

/-- `datetime.datetime.strptime(s, fmt)` restricted to the directives used in
this repository, returning `none` where Python raises `ValueError`. -/
def strptime (fmt s : String) : Option PyDateTime :=
  match fmtItemsOf fmt.data with
  | none => none
  | some items =>
    match matchItems items s.data {} with
    | none => none
    | some v => finalizeVals v

/-- The ordered format cascade of `BoardScraper._parse_date`
(mytowngov_board_scraper.py lines 115-121). -/
def formats : List String :=
  ["%b %d, %Y %I:%M %p %Z",
   "%b %d, %Y %I:%M %p",
   "%B %d, %Y %I:%M %p",
   "%Y-%m-%d %H:%M:%S",
   "%B %d, %Y"]

/-- `BoardScraper._parse_date` (mytowngov_board_scraper.py lines 112-131):
normalise newlines, strip, then return the first format that matches,
else `None`. -/
def parse_date (date_str : String) : Option PyDateTime :=
  let ds := pyStrip (replaceNlSpace date_str)
  formats.findSome? (fun f => strptime f ds)

/-!  ## Cache and page fetcher (mytowngov_common.py lines 52-104 and 282-334)

`mytowngov_common.py` never assigns a module-level `logger`; the bare
`logger` references inside `Cache.invalidate_cache` (line 90) and
`Cache.is_valid_cached_content` (lines 97 and 101) therefore raise
`NameError` when executed.  The model makes those raises explicit. -/

/-- Exceptions that escape the modelled code paths. -/
inductive PyErr where
  /-- `NameError: name 'logger' is not defined` from the bare `logger`
  references in the `Cache` methods. -/
  | nameError
  /-- the exception re-raised by `fetch_page` after its last failed attempt. -/
  | fetchFail
  /-- `AttributeError` from calling a method on `None`. -/
  | attributeError
deriving DecidableEq, Repr

/-- State of the cache for one URL at the moment of a call: the configured
`enabled` flag and TTL, whether a cache file exists (and its content), and
the file's age.  Wall-clock values are passed in as data. -/
structure CacheState where
  enabled : Bool
  /-- content of the cache file for this URL, `none` if the file is absent. -/
  entry : Option String
  /-- `datetime.now() - fromtimestamp(getmtime(file))`, in seconds. -/
  elapsedSeconds : Nat
  ttl_hours : Nat
deriving Repr

/-- `Cache.is_cached` (lines 65-72): enabled, file exists, and age strictly
less than the TTL. -/
def is_cached (s : CacheState) : Bool :=
  s.enabled && s.entry.isSome && decide (s.elapsedSeconds < s.ttl_hours * 3600)

/-- `Cache.get_cached` (lines 74-77); only called when the entry exists. -/
def get_cached (s : CacheState) : String := s.entry.getD ""

def emptyBodyMarker : String := "<body></body>"

/-- `Cache.is_valid_cached_content` (lines 92-104).  An entry passing
`is_cached` whose content fails either content check reaches a
`logger.warning` call and raises `NameError` (the module has no `logger`). -/
def is_valid_cached_content (s : CacheState) : Except PyErr Bool :=
  if !is_cached s then .ok false
  else
    let content := get_cached s
    if content = "" || pyIn emptyBodyMarker content ||
        (pyStrip content).length < 100 then
      .error .nameError
    else if !pyIn "Past Meetings" content && !pyIn "Upcoming Meetings" content &&
        !pyIn "Boards and Committees" content then
      .error .nameError
    else .ok true

/-- The validity predicate on cached content named by the spec: non-empty, no
`<body></body>` placeholder, stripped length at least 100, and at least one
of the three marker substrings present. -/
def validCachedContent (c : String) : Bool :=
  !(c = "") && !pyIn emptyBodyMarker c && decide (100 ≤ (pyStrip c).length) &&
    (pyIn "Past Meetings" c || pyIn "Upcoming Meetings" c ||
     pyIn "Boards and Committees" c)

/-- The per-attempt content check of `fetch_page` (line 322): no
`<body></body>` and stripped length at least 100. -/
def validFetchedContent (c : String) : Bool :=
  !pyIn emptyBodyMarker c && decide (100 ≤ (pyStrip c).length)

/-- Outcome of one navigation attempt: `none` when navigation, the wait, or
the body checks raise; `some c` when content `c` was read from the page.
Line 322 then rejects invalid content, turning it into a failed attempt. -/
def attemptContent (a : Option String) : Option String :=
  match a with
  | none => none
  | some c => if validFetchedContent c then some c else none

/-- Observable trace of one `fetch_page` call. -/
structure FetchTrace where
  result : Except PyErr (Option String)
  /-- number of `time.sleep(delay)` backoffs executed (line 330). -/
  sleeps : Nat
  /-- number of navigation attempts entered (`driver.get`, line 296). -/
  navAttempts : Nat
deriving Repr

/-- The retry loop of `fetch_page` (lines 293-333): one list element per
`range(retries)` iteration.  A failed non-final attempt sleeps and retries;
a failed final attempt re-raises; with zero attempts the loop is skipped and
`content` stays `None`. -/
def attemptLoop : List (Option String) → FetchTrace
  | [] => ⟨.ok none, 0, 0⟩
  | a :: rest =>
    match attemptContent a with
    | some c => ⟨.ok (some c), 0, 1⟩
    | none =>
      if rest.isEmpty then ⟨.error .fetchFail, 0, 1⟩
      else
        let t := attemptLoop rest
        ⟨t.result, t.sleeps + 1, t.navAttempts + 1⟩

/-- `fetch_page` (lines 282-334): serve a valid cached entry when not
bypassing, otherwise run the retry loop.  The `attempts` list fixes the
environment's response to each of the `retries` navigation attempts. -/
def fetch_page (s : CacheState) (attempts : List (Option String))
    (bypass_cache : Bool) : FetchTrace :=
  if bypass_cache then attemptLoop attempts
  else
    match is_valid_cached_content s with
    | .error e => ⟨.error e, 0, 0⟩
    | .ok true => ⟨.ok (some (get_cached s)), 0, 0⟩
    | .ok false => attemptLoop attempts

/-!  ## Board scraper: `BoardScraper._scrape_meetings`
(mytowngov_board_scraper.py lines 133-332) -/

/-- The first `<a>` inside a table cell, when present; its `href` attribute
may itself be absent (`get_attribute` returns `None`). -/
structure AnchorEl where
  href : Option String
deriving DecidableEq, Repr

/-- A table cell: its visible text and the first anchor inside it
(`find_element(By.TAG_NAME, "a")` raises when there is none). -/
structure TCell where
  text : String
  anchor : Option AnchorEl
deriving DecidableEq, Repr

/-- A table row (`find_elements(By.TAG_NAME, "td")`). -/
structure TRow where
  cells : List TCell
deriving DecidableEq, Repr

def defaultCell : TCell := ⟨"", none⟩

/-- A meeting dict as appended by `_scrape_meetings`. -/
structure Meeting where
  board_name : String
  date : PyDateTime
  location : String
  status : String
  details_url : Option String
deriving DecidableEq, Repr

/-- The composite dedup key `(board_name, date_str, details_url)`. -/
def MKey : Type := String × String × Option String

instance : DecidableEq MKey := by
  unfold MKey
  infer_instance

/-- The past-meetings row loop (lines 196-222).  Rows with fewer than five
cells are skipped; a fifth cell without an anchor raises
`NoSuchElementException`, which the enclosing `try` of `_scrape_meetings`
catches, abandoning the rest of the scrape and returning the meetings
accumulated so far (modelled as `.error acc`). -/
def processPastRows (board : String) :
    List TRow → List MKey → List Meeting → Except (List Meeting) (List MKey × List Meeting)
  | [], seen, acc => .ok (seen, acc)
  | r :: rest, seen, acc =>
    if 5 ≤ r.cells.length then
      let date_str := pyStrip (r.cells.getD 0 defaultCell).text
      let location := pyStrip (r.cells.getD 1 defaultCell).text
      let status := if pyIn "Cancelled" location then "Cancelled" else "Scheduled"
      match (r.cells.getD 4 defaultCell).anchor with
      | none => .error acc
      | some a =>
        let details_url := a.href
        match parse_date date_str with
        | some d =>
          let k : MKey := (board, date_str, details_url)
          if k ∈ seen then processPastRows board rest seen acc
          else
            processPastRows board rest (k :: seen)
              (acc ++ [⟨board, d, location, status, details_url⟩])
        | none => processPastRows board rest seen acc
    else processPastRows board rest seen acc

/-- A sibling element scanned in the Upcoming Meetings section
(lines 252-295): tag name, visible text, `href` attribute. -/
structure Elem where
  tag : String
  text : String
  href : Option String
deriving DecidableEq, Repr

/-- The accumulating `current_meeting` dict of the upcoming-meetings scan. -/
structure CurMeeting where
  board_name : String
  date : Option String
  location : Option String
  details_url : Option String
deriving DecidableEq, Repr

def initCur (board : String) : CurMeeting := ⟨board, none, none, none⟩

def boundaryKeywords : List String := ["Past Meetings", "Regular Meetings", "Subcommittees"]

def monthTokens : List String :=
  ["Jan", "Feb", "Mar", "Apr", "May", "Jun", "Jul", "Aug", "Sep", "Oct", "Nov", "Dec"]

def locationTokens : List String :=
  ["Myron E. Richardson", "Town House", "Cancelled", "Assessor\x27s", "Conference room"]

/-- Flush the accumulated upcoming meeting (lines 266-283 and 297-312):
require a date and a details URL, parse the date, dedup on
`(board_name, date, details_url)`, append on first occurrence. -/
def flushCur (cur : CurMeeting) (seen : List MKey) (acc : List Meeting) :
    List MKey × List Meeting :=
  match cur.date, cur.details_url with
  | some dstr, some durl =>
    match parse_date dstr with
    | some d =>
      let loc := cur.location.getD ""
      let status := if pyIn "Cancelled" loc then "Cancelled" else "Scheduled"
      let k : MKey := (cur.board_name, dstr, some durl)
      if k ∈ seen then (seen, acc)
      else (k :: seen, acc ++ [⟨cur.board_name, d, loc, status, some durl⟩])
    | none => (seen, acc)
  | _, _ => (seen, acc)

/-- One step of the upcoming-meetings element classifier (lines 256-295). -/
def processUpcoming (board : String) :
    List Elem → List MKey → List Meeting → CurMeeting → List MKey × List Meeting
  | [], seen, acc, cur => flushCur cur seen acc
  | e :: rest, seen, acc, cur =>
    let t := pyStrip e.text
    if t = "" then processUpcoming board rest seen acc cur
    else if boundaryKeywords.any (fun k => pyIn k t) then
      let (seen', acc') := flushCur cur seen acc
      processUpcoming board rest seen' acc' (initCur board)
    else if pyIn "Details and Agenda" t then processUpcoming board rest seen acc cur
    else if monthTokens.any (fun m => pyIn m t) then
      processUpcoming board rest seen acc { cur with date := some t }
    else if locationTokens.any (fun m => pyIn m t) then
      processUpcoming board rest seen acc { cur with location := some t }
    else
      match e.href with
      | some h =>
        if e.tag = "a" then
          if pyIn "meeting" (pyLower h) then
            processUpcoming board rest seen acc { cur with details_url := some h }
          else processUpcoming board rest seen acc cur
        else processUpcoming board rest seen acc cur
      | none => processUpcoming board rest seen acc cur

/-- `_scrape_meetings` restricted to its emitted list: past-meetings rows
first (sharing `seen_meetings` with the upcoming scan); an exception in the
past loop abandons the upcoming scan and returns what was accumulated. -/
def scrape_meetings (board : String) (pastRows : List TRow) (upElems : List Elem) :
    List Meeting :=
  match processPastRows board pastRows [] [] with
  | .error ms => ms
  | .ok (seen, ms) => (processUpcoming board upElems seen ms (initCur board)).2

/-!  ## Candidate streams and the spec-side deduplicator (spec section 4.4) -/

/-- The raw meeting candidates of the past-meetings loop, paired with their
composite keys, ignoring deduplication; the `Bool` reports whether a row
raised (fifth cell without an anchor), which abandons the scrape. -/
def pastCandidates (board : String) : List TRow → List (MKey × Meeting) × Bool
  | [] => ([], false)
  | r :: rest =>
    if 5 ≤ r.cells.length then
      let date_str := pyStrip (r.cells.getD 0 defaultCell).text
      let location := pyStrip (r.cells.getD 1 defaultCell).text
      let status := if pyIn "Cancelled" location then "Cancelled" else "Scheduled"
      match (r.cells.getD 4 defaultCell).anchor with
      | none => ([], true)
      | some a =>
        match parse_date date_str with
        | some d =>
          let k : MKey := (board, date_str, a.href)
          let p := pastCandidates board rest
          ((k, ⟨board, d, location, status, a.href⟩) :: p.1, p.2)
        | none => pastCandidates board rest
    else pastCandidates board rest

/-- The candidate the upcoming-meetings accumulator would flush, ignoring
deduplication: zero or one element. -/
def curCandidate (cur : CurMeeting) : List (MKey × Meeting) :=
  match cur.date, cur.details_url with
  | some dstr, some durl =>
    match parse_date dstr with
    | some d =>
      let loc := cur.location.getD ""
      let status := if pyIn "Cancelled" loc then "Cancelled" else "Scheduled"
      [((cur.board_name, dstr, some durl), ⟨cur.board_name, d, loc, status, some durl⟩)]
    | none => []
  | _, _ => []

/-- The raw meeting candidates of the upcoming-meetings scan, ignoring
deduplication. -/
def upCandidates (board : String) : List Elem → CurMeeting → List (MKey × Meeting)
  | [], cur => curCandidate cur
  | e :: rest, cur =>
    let t := pyStrip e.text
    if t = "" then upCandidates board rest cur
    else if boundaryKeywords.any (fun k => pyIn k t) then
      curCandidate cur ++ upCandidates board rest (initCur board)
    else if pyIn "Details and Agenda" t then upCandidates board rest cur
    else if monthTokens.any (fun m => pyIn m t) then
      upCandidates board rest { cur with date := some t }
    else if locationTokens.any (fun m => pyIn m t) then
      upCandidates board rest { cur with location := some t }
    else
      match e.href with
      | some h =>
        if e.tag = "a" then
          if pyIn "meeting" (pyLower h) then
            upCandidates board rest { cur with details_url := some h }
          else upCandidates board rest cur
        else upCandidates board rest cur
      | none => upCandidates board rest cur

/-- All raw meeting candidates of one `_scrape_meetings` run, in processing
order (upcoming candidates are dropped when the past loop raised). -/
def allCandidates (board : String) (pastRows : List TRow) (upElems : List Elem) :
    List (MKey × Meeting) :=
  let p := pastCandidates board pastRows
  if p.2 then p.1 else p.1 ++ upCandidates board upElems (initCur board)

/-- Deduplicator as the spec words it (section 4.4): given a stream of
candidates, emit only the first occurrence per composite key, given keys
already seen. -/
def dedupFirst (seen : List MKey) : List (MKey × Meeting) → List (MKey × Meeting)
  | [] => []
  | (k, m) :: rest =>
    if k ∈ seen then dedupFirst seen rest
    else (k, m) :: dedupFirst (k :: seen) rest

/-- The seen-key set after feeding a candidate stream through the
deduplicator. -/
def seenAfter (seen : List MKey) : List (MKey × Meeting) → List MKey
  | [] => seen
  | (k, _) :: rest =>
    if k ∈ seen then seenAfter seen rest
    else seenAfter (k :: seen) rest

/-!  ## Meeting scraper timestamp handling
(mytowngov_meeting_scraper.py lines 174-181) -/

/-- Zero-pad a number to two digits. -/
def pad2 (n : Nat) : String := if n < 10 then "0" ++ toString n else toString n

/-- Render a datetime as `%Y-%m-%d %H:%M:%S`. -/
def fmtTimestamp (d : PyDateTime) : String :=
  toString d.year ++ "-" ++ pad2 d.month ++ "-" ++ pad2 d.day ++ " " ++
    pad2 d.hour ++ ":" ++ pad2 d.minute ++ ":" ++ pad2 d.second

/-- Modelled from the spec: `parse_time_to_timestamp` is imported from
`mytowngov_common` but missing from the source tree.  Per spec sections 7
and 8 it normalises a raw time string to a timestamp via the date-format
cascade and, when the string is unparseable, records a `TimeParseError`
warning and yields no timestamp.  Returns (timestamp, TimeParseError
recorded). -/
def parse_time_to_timestamp (s : String) : Option String × Bool :=
  match parse_date s with
  | some d => (some (fmtTimestamp d), false)
  | none => (none, true)

/-- `scrape_meeting` lines 174-181: parse `meeting_time or meeting_data["Time"]`;
on success store the timestamp, on failure fall back to `datetime.now()` —
the meeting record is kept either way.  Returns
(Timestamp field, record emitted, TimeParseError recorded). -/
def scrapeMeetingTimestamp (meeting_time : Option String) (timeField now : String) :
    String × Bool × Bool :=
  let r := parse_time_to_timestamp (meeting_time.getD timeField)
  match r.1 with
  | some ts => (ts, true, r.2)
  | none => (now, true, r.2)

/-!  ## Error tracker (error_tracker.py lines 6-29) -/

/-- One error dict as built by `ErrorTracker.add_error`. -/
structure ErrorRecord where
  timestamp : String
  etype : String
  message : String
  url : String
  is_warning : Bool
  retry_count : Option Nat
deriving DecidableEq, Repr

/-- The `ErrorTracker` state: flat log, per-kind counts (a `defaultdict(int)`
in insertion order), and the two totals. -/
structure ErrorTracker where
  errors : List ErrorRecord
  error_counts : List (String × Nat)
  total_errors : Nat
  total_warnings : Nat
deriving DecidableEq, Repr

def initTracker : ErrorTracker := ⟨[], [], 0, 0⟩

/-- `defaultdict(int)` increment: bump the existing key or append it with 1. -/
def bumpCount : List (String × Nat) → String → List (String × Nat)
  | [], k => [(k, 1)]
  | (a, n) :: rest, k =>
    if a = k then (a, n + 1) :: rest else (a, n) :: bumpCount rest k

/-- `ErrorTracker.add_error` (lines 13-29); `now` stands for
`datetime.now().strftime(...)`. -/
def add_error (t : ErrorTracker) (error_type message url : String)
    (retry_count : Option Nat) (is_warning : Bool) (now : String) : ErrorTracker :=
  { errors := t.errors ++ [⟨now, error_type, message, url, is_warning, retry_count⟩]
    error_counts := bumpCount t.error_counts error_type
    total_errors := if is_warning then t.total_errors else t.total_errors + 1
    total_warnings := if is_warning then t.total_warnings + 1 else t.total_warnings }

/-- One `add_error` call's arguments. -/
structure AddCall where
  error_type : String
  message : String
  url : String
  retry_count : Option Nat
  is_warning : Bool
  now : String
deriving DecidableEq, Repr

/-- The record a call produces. -/
def recordOf (c : AddCall) : ErrorRecord :=
  ⟨c.now, c.error_type, c.message, c.url, c.is_warning, c.retry_count⟩

/-- Apply a sequence of `add_error` calls. -/
def applyCalls (t : ErrorTracker) : List AddCall → ErrorTracker
  | [] => t
  | c :: cs =>
    applyCalls (add_error t c.error_type c.message c.url c.retry_count c.is_warning c.now) cs

/-- Sum of the per-kind counts. -/
def sumCounts (l : List (String × Nat)) : Nat := (l.map Prod.snd).sum

/-!  ## Homepage scraper: boards/agencies sections
(mytowngov_homepage_scraper.py lines 85-173) -/

/-- A homepage table cell: its stripped text and the `href` of the first
anchor matching `board?board=`, when present. -/
structure HCell where
  text : String
  boardHref : Option String
deriving DecidableEq, Repr

/-- A homepage table row. -/
structure HRow where
  cells : List HCell
deriving DecidableEq, Repr

def defaultHCell : HCell := ⟨"", none⟩

/-- A board (or outside-agency) record as built by `scrape_homepage`. -/
structure BoardEntry where
  name : String
  chair : String
  clerk : String
  active : Bool
  url : String
deriving DecidableEq, Repr

def mytowngovBase : String := "https://www.mytowngovernment.org"

/-- The boards-table row loop (lines 99-119): rows with fewer than three
cells or an empty name are skipped. -/
def extractBoardRows : List HRow → List BoardEntry
  | [] => []
  | r :: rest =>
    if 3 ≤ r.cells.length then
      let board_name := pyStrip (r.cells.getD 0 defaultHCell).text
      let chair := pyStrip (r.cells.getD 1 defaultHCell).text
      let clerk := pyStrip (r.cells.getD 2 defaultHCell).text
      let board_url :=
        match (r.cells.getD 0 defaultHCell).boardHref with
        | some h => mytowngovBase ++ h
        | none => ""
      let active := !pyIn "(inactive)" (pyLower board_name)
      if board_name ≠ "" then
        ⟨pyStrip (pyRemove "(inactive)" board_name), chair, clerk, active, board_url⟩
          :: extractBoardRows rest
      else extractBoardRows rest
    else extractBoardRows rest

/-- The agencies-table row loop (lines 144-164), identical in shape. -/
def extractAgencyRows : List HRow → List BoardEntry
  | [] => []
  | r :: rest =>
    if 3 ≤ r.cells.length then
      let agency_name := pyStrip (r.cells.getD 0 defaultHCell).text
      let chair := pyStrip (r.cells.getD 1 defaultHCell).text
      let clerk := pyStrip (r.cells.getD 2 defaultHCell).text
      let agency_url :=
        match (r.cells.getD 0 defaultHCell).boardHref with
        | some h => mytowngovBase ++ h
        | none => ""
      let active := !pyIn "(inactive)" (pyLower agency_name)
      if agency_name ≠ "" then
        ⟨pyStrip (pyRemove "(inactive)" agency_name), chair, clerk, active, agency_url⟩
          :: extractAgencyRows rest
      else extractAgencyRows rest
    else extractAgencyRows rest

/-- How one located section presents: heading present with a following table,
heading present without one, or heading absent. -/
inductive SectionState where
  | notFound
  | noTable
  | table (rows : List HRow)
deriving DecidableEq, Repr

/-- The agencies-section heading loop (lines 131-137).  Its `if` tests
`boards_section` rather than `agencies_section`, so: when the boards section
was found, the loop breaks on the first tag — calling `get_text` on `None`
(an `AttributeError`) whenever the `h1` lookup failed; when the boards
section was not found, the loop runs all six tags and keeps only the last
lookup's result.  `agFinds` lists, per heading tag `h1..h6`, whether
`soup.find` locates the agencies heading. -/
def locateAgencies (boardsFound : Bool) (agFinds : List Bool) : Except PyErr Bool :=
  if boardsFound then
    match agFinds with
    | [] => .ok false
    | b :: _ => if b then .ok true else .error .attributeError
  else .ok (agFinds.getLastD false)

/-- The boards-plus-agencies phase of `scrape_homepage` (lines 85-173),
returning the boards, the agencies and the error tracker, or the exception
that aborted the run.  `agTable` gives the table following the agencies
heading when that heading is located. -/
def scrapeHomepageSections (url now : String) (bSec : SectionState)
    (agFinds : List Bool) (agTable : Option (List HRow)) (t0 : ErrorTracker) :
    Except PyErr (List BoardEntry × List BoardEntry × ErrorTracker) :=
  let boardsFound := bSec ≠ SectionState.notFound
  let step1 :=
    match bSec with
    | .notFound =>
      (([] : List BoardEntry),
       add_error t0 "ParsingError" "No boards section found" url none false now)
    | .noTable =>
      ([], add_error t0 "ParsingError" "No boards table found" url none false now)
    | .table rows =>
      let bd := extractBoardRows rows
      if bd.isEmpty then
        (bd, add_error t0 "ParsingError"
          "Parsed boards table but no valid boards were added" url none false now)
      else (bd, t0)
  let bd := step1.1
  let t1 := step1.2
  match locateAgencies boardsFound agFinds with
  | .error e => .error e
  | .ok false =>
    .ok (bd, [],
      add_error t1 "ParsingError" "No agencies section found" url none false now)
  | .ok true =>
    match agTable with
    | none =>
      .ok (bd, [],
        add_error t1 "ParsingError" "No agencies table found" url none false now)
    | some rows =>
      let ag := extractAgencyRows rows
      if ag.isEmpty then
        .ok (bd, ag, add_error t1 "ParsingError"
          "Parsed agencies table but no valid agencies were added" url none false now)
      else .ok (bd, ag, t1)

/-!  ## Related-meetings traversal (mytowngov_meeting_scraper.py lines 386-433)

`scrape_meeting` recurses into every linked URL of the related-meetings
table with no depth bound and no visited set.  The traversal is modelled
with explicit fuel bounding the recursion depth: `none` means the recursion
exceeds every finite depth, i.e. does not terminate. -/

/-- Depth-bounded traversal of a list of pages: visit the head page, recurse
into its related links with one less fuel, then the remaining pages with the
same fuel.  Returns the visit order, or `none` when the depth bound is hit. -/
def travMany {α : Type} (succs : α → List α) : Nat → List α → Option (List α)
  | _, [] => some []
  | 0, _ :: _ => none
  | n + 1, u :: us =>
    match travMany succs n (succs u), travMany succs (n + 1) us with
    | some l, some ls => some ((u :: l) ++ ls)
    | _, _ => none
termination_by n l => (n, l.length)

/-!  ## Concrete scenario inputs used by the claims -/

/-- 120 characters of filler: passes the length check, contains no marker. -/
def contentNoMarkers : String := ⟨List.replicate 120 'x'⟩

/-- Valid cached content: a marker plus filler. -/
def contentWithMarker : String := "Past Meetings " ++ ⟨List.replicate 100 'x'⟩

def detailHref : String := "https://www.mytowngovernment.org/meeting?meeting=123"

/-- The five-column Past Meetings row of spec section 8. -/
def pastRow5 : TRow :=
  ⟨[⟨"Mar 11, 2025 6:30 PM EDT", none⟩, ⟨"Town House", none⟩, ⟨"Minutes", none⟩,
    ⟨"", none⟩, ⟨"Details", some ⟨some detailHref⟩⟩]⟩

/-- The same row with an unparseable date. -/
def tbdRow : TRow :=
  ⟨[⟨"TBD", none⟩, ⟨"Town House", none⟩, ⟨"Minutes", none⟩,
    ⟨"", none⟩, ⟨"Details", some ⟨some detailHref⟩⟩]⟩

/-- One well-formed agencies-table row. -/
def agencyRowA : HRow :=
  ⟨[⟨"Agency A", some "/board?board=9"⟩, ⟨"Chair A", none⟩, ⟨"Clerk A", none⟩]⟩

/-- Cache enabled, fresh file whose content is the empty string. -/
def freshEmptyEntry : CacheState := ⟨true, some "", 0, 24⟩

/-- Cache disabled, no file. -/
def disabledCache : CacheState := ⟨false, none, 0, 24⟩

/-- Cache disabled but a fresh file with fully valid content on disk. -/
def disabledCacheGoodEntry : CacheState := ⟨false, some contentWithMarker, 0, 24⟩

/-- Cache enabled, fresh file with fully valid content. -/
def validHitCache : CacheState := ⟨true, some contentWithMarker, 0, 24⟩

/-!  ## Theorems -/

theorem applyCalls_errors_len : ∀ (cs : List AddCall) (t : ErrorTracker),
    (applyCalls t cs).errors.length = t.errors.length + cs.length := by
  intro cs
  induction cs with
  | nil => intro t; simp [applyCalls]
  | cons c cs ih =>
    intro t
    simp only [applyCalls, ih, add_error, List.length_append, List.length_cons,
      List.length_nil]
    omega

theorem applyCalls_totals : ∀ (cs : List AddCall) (t : ErrorTracker),
    (applyCalls t cs).total_errors + (applyCalls t cs).total_warnings
      = t.total_errors + t.total_warnings + cs.length := by
  intro cs
  induction cs with
  | nil => intro t; simp [applyCalls]
  | cons c cs ih =>
    intro t
    simp only [applyCalls, ih, add_error, List.length_cons]
    by_cases h : c.is_warning <;> simp [h] <;> omega

theorem bumpCount_sum : ∀ (l : List (String × Nat)) (k : String),
    sumCounts (bumpCount l k) = sumCounts l + 1 := by
  intro l
  induction l with
  | nil => intro k; simp [bumpCount, sumCounts]
  | cons p rest ih =>
    intro k
    by_cases h : p.1 = k
    · cases p
      simp_all [bumpCount, sumCounts]
      omega
    · cases p
      simp_all [bumpCount, sumCounts]
      omega

theorem applyCalls_counts : ∀ (cs : List AddCall) (t : ErrorTracker),
    sumCounts (applyCalls t cs).error_counts = sumCounts t.error_counts + cs.length := by
  intro cs
  induction cs with
  | nil => intro t; simp [applyCalls]
  | cons c cs ih =>
    intro t
    simp only [applyCalls, ih, add_error, bumpCount_sum, List.length_cons]
    omega

theorem applyCalls_append : ∀ (cs : List AddCall) (c : AddCall) (t : ErrorTracker),
    applyCalls t (cs ++ [c]) = applyCalls (applyCalls t cs) [c] := by
  intro cs
  induction cs with
  | nil => intro c t; simp [applyCalls]
  | cons d cs ih =>
    intro c t
    simp only [List.cons_append, applyCalls]
    rw [List.append_eq, ih]
    simp [applyCalls]

/-- C10: from a fresh `ErrorTracker`, every `add_error` call appends exactly
one record and removes none (the log after `cs ++ [c]` is the log after `cs`
with one record appended), and the flat log length always equals
`total_errors + total_warnings` and the sum of the per-kind counts. -/
theorem C10_error_tracker_consistency (cs : List AddCall) :
    (applyCalls initTracker cs).errors.length = cs.length
    ∧ (∀ (ds : List AddCall) (c : AddCall),
        (applyCalls initTracker (ds ++ [c])).errors
          = (applyCalls initTracker ds).errors ++ [recordOf c])
    ∧ (applyCalls initTracker cs).errors.length
        = (applyCalls initTracker cs).total_errors
            + (applyCalls initTracker cs).total_warnings
    ∧ (applyCalls initTracker cs).errors.length
        = sumCounts (applyCalls initTracker cs).error_counts := by
  refine ⟨?_, ?_, ?_, ?_⟩
  · simp [applyCalls_errors_len, initTracker]
  · intro ds c
    rw [applyCalls_append]
    simp [applyCalls, add_error, recordOf]
  · rw [applyCalls_errors_len, applyCalls_totals]
    simp [initTracker]
  · rw [applyCalls_errors_len, applyCalls_counts]
    simp [initTracker, sumCounts]

/-- C5: the claim says the cache validity check never raises and degrades to
`False`; but `mytowngov_common.py` defines no module-level `logger`, so the
`logger.warning` on the invalid-content path (line 97) raises `NameError`.
Evaluation at a fresh cached entry with empty content. -/
theorem C5_validity_check_raises_nameerror :
    is_valid_cached_content freshEmptyEntry = .error .nameError := by
  rfl

theorem isValid_ok_true_iff (s : CacheState) :
    is_valid_cached_content s = .ok true ↔
      (s.enabled = true ∧ s.entry.isSome = true
        ∧ s.elapsedSeconds < s.ttl_hours * 3600
        ∧ validCachedContent (get_cached s) = true) := by
  unfold is_valid_cached_content validCachedContent is_cached
  by_cases h1 : s.enabled
  · by_cases h2 : s.entry.isSome
    · by_cases h3 : s.elapsedSeconds < s.ttl_hours * 3600
      · simp only [h1, h2, h3]
        by_cases h4 : get_cached s = ""
        · simp [h4]
        · by_cases h5 : pyIn emptyBodyMarker (get_cached s)
          · simp [h4, h5]
          · by_cases h6 : (pyStrip (get_cached s)).length < 100
            · simp [h4, h5, h6]
            · by_cases h7 : pyIn "Past Meetings" (get_cached s)
              · simp [h4, h5, h6, h7]
                omega
              · by_cases h8 : pyIn "Upcoming Meetings" (get_cached s)
                · simp [h4, h5, h6, h7, h8]
                  omega
                · by_cases h9 : pyIn "Boards and Committees" (get_cached s)
                  · simp [h4, h5, h6, h7, h8, h9]
                    omega
                  · simp [h4, h5, h6, h7, h8, h9]
      · simp [h1, h2, h3]
    · simp [h1, h2]
  · simp [h1]

/-- C4 (amended): the claimed biconditional additionally needs the cache's
`enabled` flag — `is_cached` returns `False` whenever caching is disabled,
regardless of the on-disk state.  With that conjunct added, the validity
report is exactly: enabled, entry exists, age strictly below the TTL, and
the content passes the non-empty / placeholder / length / marker checks. -/
theorem C4_cache_validity_iff (s : CacheState) :
    is_valid_cached_content s = .ok true ↔
      (s.enabled = true ∧ s.entry.isSome = true
        ∧ s.elapsedSeconds < s.ttl_hours * 3600
        ∧ validCachedContent (get_cached s) = true) :=
  isValid_ok_true_iff s

/-- C4 counterexample: with caching disabled, a fresh on-disk entry with fully
valid content is reported not valid, refuting the claimed biconditional
(which omits the `enabled` condition). -/
theorem C4_counterexample :
    is_valid_cached_content disabledCacheGoodEntry = .ok false
    ∧ disabledCacheGoodEntry.entry.isSome = true
    ∧ disabledCacheGoodEntry.elapsedSeconds
        < disabledCacheGoodEntry.ttl_hours * 3600
    ∧ validCachedContent (get_cached disabledCacheGoodEntry) = true := by
  refine ⟨rfl, rfl, by decide, by rfl⟩

theorem validCached_imp_validFetched (c : String) :
    validCachedContent c = true → validFetchedContent c = true := by
  unfold validCachedContent validFetchedContent
  intro h
  simp only [Bool.and_eq_true, Bool.not_eq_true', decide_eq_true_eq] at h ⊢
  exact ⟨h.1.1.2, h.1.2⟩

theorem attemptContent_valid (a : Option String) (c : String) :
    attemptContent a = some c → validFetchedContent c = true := by
  unfold attemptContent
  cases a with
  | none => intro h; cases h
  | some d =>
    by_cases hv : validFetchedContent d
    · intro h
      simp [hv] at h
      exact h ▸ hv
    · intro h
      simp [hv] at h

theorem attemptLoop_ok_valid : ∀ (atts : List (Option String)) (c : String),
    (attemptLoop atts).result = .ok (some c) → validFetchedContent c = true := by
  intro atts
  induction atts with
  | nil => intro c h; simp [attemptLoop] at h
  | cons a rest ih =>
    intro c h
    unfold attemptLoop at h
    cases ha : attemptContent a with
    | some d =>
      rw [ha] at h
      simp at h
      exact h ▸ attemptContent_valid a d ha
    | none =>
      rw [ha] at h
      by_cases he : rest.isEmpty
      · simp [he] at h
      · simp [he] at h
        exact ih c h

/-- C1 (amended): a successful `fetch_page` return with `bypass_cache=False`
satisfies the per-attempt content checks of line 322 (no `<body></body>`,
stripped length at least 100); the full cache-validity predicate — which
additionally requires a marker substring — is guaranteed only for the
valid-cache-hit path, because the fresh-fetch path never tests the markers. -/
theorem C1_fetch_content_checks (s : CacheState) (atts : List (Option String))
    (c : String) (h : (fetch_page s atts false).result = .ok (some c)) :
    validFetchedContent c = true
    ∧ (is_valid_cached_content s = .ok true → validCachedContent c = true) := by
  unfold fetch_page at h
  cases hv : is_valid_cached_content s with
  | error e => simp [hv] at h
  | ok b =>
    cases b with
    | true =>
      simp [hv] at h
      have hvc : validCachedContent (get_cached s) = true :=
        ((isValid_ok_true_iff s).mp hv).2.2.2
      refine ⟨h ▸ validCached_imp_validFetched _ hvc, fun _ => h ▸ hvc⟩
    | false =>
      simp [hv] at h
      exact ⟨attemptLoop_ok_valid atts c h, fun habs => by simp [hv] at habs⟩

set_option maxRecDepth 40000 in
/-- C1 counterexample: with no usable cache entry, `fetch_page` with
`bypass_cache=False` successfully returns freshly fetched content that
contains none of the marker substrings, so the cache-validity predicate is
false on a successful return. -/
theorem C1_counterexample :
    (fetch_page disabledCache [some contentNoMarkers] false).result
      = .ok (some contentNoMarkers)
    ∧ validCachedContent contentNoMarkers = false := by
  exact ⟨rfl, by rfl⟩

set_option maxRecDepth 40000 in
theorem C1_fetch_content_checks_witness :
    validFetchedContent contentNoMarkers = true
    ∧ (is_valid_cached_content disabledCache = .ok true →
        validCachedContent contentNoMarkers = true) :=
  C1_fetch_content_checks disabledCache [some contentNoMarkers]
    contentNoMarkers rfl

theorem attemptLoop_navAttempts_le : ∀ atts : List (Option String),
    (attemptLoop atts).navAttempts ≤ atts.length := by
  intro atts
  induction atts with
  | nil => simp [attemptLoop]
  | cons a rest ih =>
    unfold attemptLoop
    cases attemptContent a with
    | some c => simp
    | none =>
      by_cases he : rest.isEmpty
      · simp [he]
      · simp [he]
        omega

theorem attemptLoop_sleeps : ∀ atts : List (Option String), atts ≠ [] →
    (attemptLoop atts).navAttempts = (attemptLoop atts).sleeps + 1 := by
  intro atts
  induction atts with
  | nil => intro h; exact absurd rfl h
  | cons a rest ih =>
    intro _
    unfold attemptLoop
    cases attemptContent a with
    | some c => simp
    | none =>
      by_cases he : rest.isEmpty
      · simp [he]
      · have hne : rest ≠ [] := by
          cases rest with
          | nil => simp at he
          | cons b bs => simp
        simp [he, ih hne]

theorem attemptLoop_result : ∀ atts : List (Option String),
    (attemptLoop atts).result =
      match atts.findSome? attemptContent with
      | some c => .ok (some c)
      | none => if atts.isEmpty then .ok none else .error .fetchFail := by
  intro atts
  induction atts with
  | nil => simp [attemptLoop]
  | cons a rest ih =>
    unfold attemptLoop
    cases ha : attemptContent a with
    | some c => simp [List.findSome?, ha]
    | none =>
      by_cases he : rest.isEmpty
      · have : rest = [] := by
          cases rest with
          | nil => rfl
          | cons b bs => simp at he
        subst this
        simp [List.findSome?, ha, attemptLoop]
      · have hne : rest ≠ [] := by
          cases rest with
          | nil => simp at he
          | cons b bs => simp
        simp only [he, Bool.false_eq_true, if_false]
        rw [ih]
        simp [List.findSome?, ha, he]

/-- C6 (amended): with `bypass_cache=True`, or on a cache miss — entry
absent, stale, or caching disabled, all of which make the validity check
report `False` — `fetch_page` runs the retry loop: at most `retries`
navigation attempts, exactly one backoff sleep between consecutive attempts
and none after the last, the content of the first successful attempt as
result, and a propagated exception once every attempt failed.  On a valid
cache hit with `bypass_cache=False` it returns the cached content with no
navigation.  The claim's remaining trigger — a fresh cache entry with
invalid content — instead raises `NameError` inside the validity check
before any attempt (see C5). -/
theorem C6_fetch_retry_protocol (s : CacheState) (atts : List (Option String))
    (b : Bool) :
    (b = true ∨ is_valid_cached_content s = .ok false →
      fetch_page s atts b = attemptLoop atts)
    ∧ (b = false → is_valid_cached_content s = .ok true →
        fetch_page s atts b = ⟨.ok (some (get_cached s)), 0, 0⟩)
    ∧ (attemptLoop atts).navAttempts ≤ atts.length
    ∧ (atts ≠ [] →
        (attemptLoop atts).navAttempts = (attemptLoop atts).sleeps + 1)
    ∧ ((attemptLoop atts).result =
        match atts.findSome? attemptContent with
        | some c => .ok (some c)
        | none => if atts.isEmpty then .ok none else .error .fetchFail) := by
  refine ⟨?_, ?_, attemptLoop_navAttempts_le atts, attemptLoop_sleeps atts,
    attemptLoop_result atts⟩
  · intro h
    cases h with
    | inl hb => subst hb; rfl
    | inr hv => cases b with
      | true => rfl
      | false => simp [fetch_page, hv]
  · intro hb hv
    subst hb
    simp [fetch_page, hv]

set_option maxRecDepth 40000 in
/-- C6 counterexample: a fresh cache entry with invalid (empty) content and
`bypass_cache=False`: `fetch_page` raises `NameError` with zero navigation
attempts, although an attempt that would succeed is available — neither the
first successful attempt's content nor a retry-exhaustion failure results. -/
theorem C6_counterexample :
    fetch_page freshEmptyEntry [some contentWithMarker] false
      = ⟨.error .nameError, 0, 0⟩
    ∧ attemptContent (some contentWithMarker) = some contentWithMarker := by
  exact ⟨rfl, by rfl⟩

set_option maxRecDepth 40000 in
theorem C6_fetch_retry_protocol_witness :
    fetch_page disabledCache [none, some contentNoMarkers] false
      = attemptLoop [none, some contentNoMarkers]
    ∧ fetch_page validHitCache [] false
      = ⟨.ok (some (get_cached validHitCache)), 0, 0⟩
    ∧ ([none, some contentNoMarkers] ≠ []  →
        (attemptLoop [none, some contentNoMarkers]).navAttempts
          = (attemptLoop [none, some contentNoMarkers]).sleeps + 1) := by
  refine ⟨?_, ?_, ?_⟩
  · exact (C6_fetch_retry_protocol disabledCache [none, some contentNoMarkers]
      false).1 (Or.inr rfl)
  · exact (C6_fetch_retry_protocol validHitCache [] false).2.1 rfl (by rfl)
  · exact (C6_fetch_retry_protocol disabledCache [none, some contentNoMarkers]
      false).2.2.2.1

set_option maxRecDepth 40000 in
/-- C3 (amended): the ordered cascade accepts the three strings — the first
via the first format, the other two via the fourth and fifth after the
earlier formats fail — and the two strings denoting March 11, 2025 yield
the same calendar date; `"TBD"` matches no format, so in
`_scrape_meetings` the affected row is dropped.  In `scrape_meeting`
(lines 174-181), however, an unparseable time leads to a recorded
`TimeParseError` warning (spec-modelled `parse_time_to_timestamp`) while
the meeting record is kept, its Timestamp falling back to the current
time — it is not dropped there. -/
theorem C3_date_cascade :
    parse_date "Sep 10, 2024 6:30 PM EDT" = some ⟨2024, 9, 10, 18, 30, 0⟩
    ∧ parse_date "March 11, 2025" = some ⟨2025, 3, 11, 0, 0, 0⟩
    ∧ parse_date "2025-03-11 18:30:00" = some ⟨2025, 3, 11, 18, 30, 0⟩
    ∧ ((parse_date "March 11, 2025").map (fun d => (d.year, d.month, d.day))
        = (parse_date "2025-03-11 18:30:00").map (fun d => (d.year, d.month, d.day)))
    ∧ strptime (formats.getD 0 "") "Sep 10, 2024 6:30 PM EDT"
        = some ⟨2024, 9, 10, 18, 30, 0⟩
    ∧ ((formats.take 4).all (fun f => (strptime f "March 11, 2025").isNone) = true)
    ∧ ((formats.take 3).all (fun f => (strptime f "2025-03-11 18:30:00").isNone) = true)
    ∧ parse_date "TBD" = none
    ∧ scrape_meetings "Planning Board" [tbdRow] [] = []
    ∧ (∀ now : String,
        scrapeMeetingTimestamp (some "TBD") "Unknown" now = (now, true, true)) := by
  refine ⟨by decide, by decide, by decide, by decide, by decide, by decide,
    by decide, by decide, by decide, fun now => rfl⟩

set_option maxRecDepth 40000 in
/-- C3 counterexample: at the cited `scrape_meeting` code, the meeting whose
time string is `"TBD"` is still emitted — the second component records that
the meeting dict is returned, with Timestamp equal to `datetime.now()` —
while the claim says the record is dropped (the `TimeParseError` warning is
recorded, third component). -/
theorem C3_counterexample :
    scrapeMeetingTimestamp (some "TBD") "Unknown" "2026-02-03 04:05:06"
      = ("2026-02-03 04:05:06", true, true) := by
  rfl

set_option maxRecDepth 40000 in
/-- C7: the five-column Past Meetings row of the spec scenario yields exactly
one meeting with status `"Scheduled"`, the parsed timestamp of the first
cell, and the details URL taken from the anchor's `href`; in general a
five-cell row's status is `"Cancelled"` exactly when the location cell
contains `"Cancelled"`, and a row with fewer than five cells is skipped. -/
theorem C7_past_meetings_row (b dateText locText minText otherText aText : String)
    (href : Option String) (d : PyDateTime) (r : TRow) (rest : List TRow)
    (seen : List MKey) (acc : List Meeting)
    (hd : parse_date (pyStrip dateText) = some d)
    (hshort : r.cells.length < 5) :
    scrape_meetings "Planning Board" [pastRow5] []
      = [⟨"Planning Board", ⟨2025, 3, 11, 18, 30, 0⟩, "Town House",
          "Scheduled", some detailHref⟩]
    ∧ processPastRows b
        [⟨[⟨dateText, none⟩, ⟨locText, none⟩, ⟨minText, none⟩,
           ⟨otherText, none⟩, ⟨aText, some ⟨href⟩⟩]⟩] [] []
        = .ok ([(b, pyStrip dateText, href)],
            [⟨b, d, pyStrip locText,
              (if pyIn "Cancelled" (pyStrip locText) then "Cancelled"
               else "Scheduled"), href⟩])
    ∧ processPastRows b (r :: rest) seen acc = processPastRows b rest seen acc := by
  refine ⟨by decide, ?_, ?_⟩
  · simp only [processPastRows, List.length_cons, List.length_nil, List.getD]
    norm_num
    rw [hd]
  · conv_lhs => rw [processPastRows]
    have hnot : ¬ 5 ≤ r.cells.length := by omega
    simp [hnot]

set_option maxRecDepth 40000 in
theorem C7_past_meetings_row_witness :
    scrape_meetings "Planning Board" [pastRow5] []
      = [⟨"Planning Board", ⟨2025, 3, 11, 18, 30, 0⟩, "Town House",
          "Scheduled", some detailHref⟩]
    ∧ processPastRows "B"
        [⟨[⟨"Mar 11, 2025 6:30 PM EDT", none⟩, ⟨" Cancelled ", none⟩,
           ⟨"", none⟩, ⟨"", none⟩, ⟨"x", some ⟨some "u"⟩⟩]⟩] [] []
        = .ok ([("B", pyStrip "Mar 11, 2025 6:30 PM EDT", some "u")],
            [⟨"B", ⟨2025, 3, 11, 18, 30, 0⟩, pyStrip " Cancelled ",
              (if pyIn "Cancelled" (pyStrip " Cancelled ") then "Cancelled"
               else "Scheduled"), some "u"⟩])
    ∧ processPastRows "B" (⟨[⟨"only", none⟩]⟩ :: []) [] []
        = processPastRows "B" [] [] [] := by
  have h := C7_past_meetings_row "B" "Mar 11, 2025 6:30 PM EDT" " Cancelled "
    "" "" "x" (some "u") ⟨2025, 3, 11, 18, 30, 0⟩ ⟨[⟨"only", none⟩]⟩ [] [] []
    (by decide) (by decide)
  exact h

theorem mem_add_error_self (t : ErrorTracker) (et m u now : String)
    (rc : Option Nat) (w : Bool) :
    (⟨now, et, m, u, w, rc⟩ : ErrorRecord) ∈ (add_error t et m u rc w now).errors := by
  simp [add_error]

theorem mem_add_error_mono (t : ErrorTracker) (et m u now : String)
    (rc : Option Nat) (w : Bool) (e : ErrorRecord) (h : e ∈ t.errors) :
    e ∈ (add_error t et m u rc w now).errors := by
  simp [add_error]
  exact Or.inl h

/-- C8 (amended): a boards-table row with fewer than three cells or an empty
name is skipped without a record; when the boards section is located but no
table follows, a `ParsingError` is recorded with `is_warning = False` (the
`add_error` call passes no `is_warning`, so it counts as an error even
though the log line is at warning level) and, provided the agencies heading
is found by the first lookup, the run continues into the agencies section
(an unrelated slip at line 134 — testing `boards_section` instead of
`agencies_section` — otherwise aborts the run with an `AttributeError`). -/
theorem C8_homepage_section_errors :
    (∀ (r : HRow) (rest : List HRow),
      (r.cells.length < 3 ∨ pyStrip ((r.cells.getD 0 defaultHCell).text) = "") →
      extractBoardRows (r :: rest) = extractBoardRows rest)
    ∧ (∀ (url now : String) (agFinds : List Bool) (agTable : Option (List HRow))
        (t : ErrorTracker), agFinds.headD false = true →
        ∃ res, scrapeHomepageSections url now .noTable agFinds agTable t = .ok res
          ∧ (⟨now, "ParsingError", "No boards table found", url, false, none⟩
              : ErrorRecord) ∈ res.2.2.errors
          ∧ res.1 = []
          ∧ (∀ rows, agTable = some rows → res.2.1 = extractAgencyRows rows)) := by
  constructor
  · intro r rest h
    cases h with
    | inl hlen =>
      conv_lhs => rw [extractBoardRows]
      have hnot : ¬ 3 ≤ r.cells.length := by omega
      simp [hnot]
    | inr hname =>
      conv_lhs => rw [extractBoardRows]
      have hname2 : pyStrip ((r.cells[0]?.getD defaultHCell).text) = "" := by
        simpa [List.getD] using hname
      by_cases hlen : 3 ≤ r.cells.length
      · simp [hlen, hname2]
      · simp [hlen]
  · intro url now agFinds agTable t hhead
    cases agFinds with
    | nil => simp at hhead
    | cons bfound bs =>
      simp at hhead
      subst hhead
      cases agTable with
      | none =>
        refine ⟨([], [],
          add_error (add_error t "ParsingError" "No boards table found" url none false now)
            "ParsingError" "No agencies table found" url none false now),
          ?_, ?_, rfl, ?_⟩
        · simp [scrapeHomepageSections, locateAgencies]
        · exact mem_add_error_mono _ _ _ _ _ _ _ _
            (mem_add_error_self _ _ _ _ _ _ _)
        · intro rows hrows
          cases hrows
      | some rows =>
        by_cases hempty : (extractAgencyRows rows).isEmpty
        · refine ⟨([], extractAgencyRows rows,
            add_error (add_error t "ParsingError" "No boards table found" url none false now)
              "ParsingError" "Parsed agencies table but no valid agencies were added"
              url none false now),
            ?_, ?_, rfl, ?_⟩
          · simp [scrapeHomepageSections, locateAgencies, hempty]
          · exact mem_add_error_mono _ _ _ _ _ _ _ _
              (mem_add_error_self _ _ _ _ _ _ _)
          · intro rows2 hrows
            cases hrows
            rfl
        · refine ⟨([], extractAgencyRows rows,
            add_error t "ParsingError" "No boards table found" url none false now),
            ?_, ?_, rfl, ?_⟩
          · simp [scrapeHomepageSections, locateAgencies, hempty]
          · exact mem_add_error_self _ _ _ _ _ _ _
          · intro rows2 hrows
            cases hrows
            rfl

/-- C8 counterexample: boards section located, boards table absent, agencies
heading found at the first tag with one valid agency row: the run succeeds
and records exactly one `ParsingError` — whose `is_warning` field is
`False`, not `True` as claimed (`add_error`'s default applies; only the
logger call is at warning level). -/
theorem C8_counterexample :
    scrapeHomepageSections "u" "t" .noTable [true] (some [agencyRowA]) initTracker
      = .ok ([],
          [⟨"Agency A", "Chair A", "Clerk A", true,
            "https://www.mytowngovernment.org/board?board=9"⟩],
          ⟨[⟨"t", "ParsingError", "No boards table found", "u", false, none⟩],
           [("ParsingError", 1)], 1, 0⟩)
    ∧ ((⟨[⟨"t", "ParsingError", "No boards table found", "u", false, none⟩],
         [("ParsingError", 1)], 1, 0⟩ : ErrorTracker).errors.map
        (fun e => (e.etype, e.is_warning))) = [("ParsingError", false)] := by
  exact ⟨by rfl, by rfl⟩

theorem C8_homepage_section_errors_witness :
    extractBoardRows [⟨[⟨"only", none⟩]⟩] = extractBoardRows []
    ∧ ∃ res, scrapeHomepageSections "u" "t" .noTable [true] (some [agencyRowA])
          initTracker = .ok res
        ∧ (⟨"t", "ParsingError", "No boards table found", "u", false, none⟩
            : ErrorRecord) ∈ res.2.2.errors
        ∧ res.1 = []
        ∧ (∀ rows, (some [agencyRowA] : Option (List HRow)) = some rows →
            res.2.1 = extractAgencyRows rows) := by
  exact ⟨C8_homepage_section_errors.1 ⟨[⟨"only", none⟩]⟩ [] (Or.inl (by decide)),
    C8_homepage_section_errors.2 "u" "t" [true] (some [agencyRowA]) initTracker
      (by decide)⟩

theorem dedupFirst_append (xs ys : List (MKey × Meeting)) : ∀ seen : List MKey,
    dedupFirst seen (xs ++ ys)
      = dedupFirst seen xs ++ dedupFirst (seenAfter seen xs) ys := by
  induction xs with
  | nil => intro seen; simp [dedupFirst, seenAfter]
  | cons p rest ih =>
    intro seen
    cases p with
    | mk k m =>
      by_cases hk : k ∈ seen
      · simp [dedupFirst, seenAfter, hk, ih]
      · simp [dedupFirst, seenAfter, hk, ih]

theorem seenAfter_append (xs ys : List (MKey × Meeting)) : ∀ seen : List MKey,
    seenAfter seen (xs ++ ys) = seenAfter (seenAfter seen xs) ys := by
  induction xs with
  | nil => intro seen; simp [seenAfter]
  | cons p rest ih =>
    intro seen
    cases p with
    | mk k m =>
      by_cases hk : k ∈ seen
      · simp [seenAfter, hk, ih]
      · simp [seenAfter, hk, ih]

theorem flushCur_eq (cur : CurMeeting) (seen : List MKey) (acc : List Meeting) :
    flushCur cur seen acc
      = (seenAfter seen (curCandidate cur),
         acc ++ (dedupFirst seen (curCandidate cur)).map Prod.snd) := by
  unfold flushCur curCandidate
  cases hd : cur.date with
  | none => simp [seenAfter, dedupFirst]
  | some dstr =>
    cases hu : cur.details_url with
    | none => simp [seenAfter, dedupFirst]
    | some durl =>
      cases hp : parse_date dstr with
      | none => simp [seenAfter, dedupFirst, hp]
      | some d =>
        by_cases hk : ((cur.board_name, dstr, some durl) : MKey) ∈ seen
        · simp [seenAfter, dedupFirst, hp, hk]
        · simp [seenAfter, dedupFirst, hp, hk]

theorem processPastRows_eq (board : String) : ∀ (rows : List TRow)
    (seen : List MKey) (acc : List Meeting),
    processPastRows board rows seen acc =
      if (pastCandidates board rows).2 then
        .error (acc ++ (dedupFirst seen (pastCandidates board rows).1).map Prod.snd)
      else
        .ok (seenAfter seen (pastCandidates board rows).1,
          acc ++ (dedupFirst seen (pastCandidates board rows).1).map Prod.snd) := by
  intro rows
  induction rows with
  | nil => intro seen acc; simp [processPastRows, pastCandidates, dedupFirst, seenAfter]
  | cons r rest ih =>
    intro seen acc
    simp only [processPastRows, pastCandidates]
    by_cases h5 : 5 ≤ r.cells.length
    · simp only [if_pos h5]
      cases ha : (r.cells.getD 4 defaultCell).anchor with
      | none => simp only [ha, dedupFirst, seenAfter]; simp
      | some a =>
        simp only [ha]
        cases hp : parse_date (pyStrip (r.cells.getD 0 defaultCell).text) with
        | none => simp only [hp]; exact ih seen acc
        | some d =>
          simp only [hp]
          by_cases hk : ((board, pyStrip (r.cells.getD 0 defaultCell).text, a.href) : MKey) ∈ seen
          · simp only [if_pos hk]
            rw [ih]
            simp only [dedupFirst, seenAfter, if_pos hk]
          · simp only [if_neg hk]
            rw [ih]
            simp only [dedupFirst, seenAfter, if_neg hk]
            by_cases hstop : (pastCandidates board rest).2
            · simp [hstop]
            · simp [hstop, seenAfter]
    · simp only [if_neg h5]
      exact ih seen acc

theorem processUpcoming_eq (board : String) : ∀ (elems : List Elem)
    (seen : List MKey) (acc : List Meeting) (cur : CurMeeting),
    processUpcoming board elems seen acc cur
      = (seenAfter seen (upCandidates board elems cur),
         acc ++ (dedupFirst seen (upCandidates board elems cur)).map Prod.snd) := by
  intro elems
  induction elems with
  | nil =>
    intro seen acc cur
    simp only [processUpcoming, upCandidates]
    exact flushCur_eq cur seen acc
  | cons e rest ih =>
    intro seen acc cur
    simp only [processUpcoming, upCandidates]
    by_cases h1 : pyStrip e.text = ""
    · simp only [if_pos h1]
      exact ih seen acc cur
    · simp only [if_neg h1]
      by_cases h2 : (boundaryKeywords.any (fun k => pyIn k (pyStrip e.text))) = true
      · simp only [h2, if_true, flushCur_eq, ih]
        rw [seenAfter_append, dedupFirst_append, List.map_append, List.append_assoc]
      · simp only [h2, Bool.false_eq_true, if_false]
        by_cases h3 : pyIn "Details and Agenda" (pyStrip e.text) = true
        · simp only [h3, if_true]
          exact ih seen acc cur
        · simp only [h3, Bool.false_eq_true, if_false]
          by_cases h4 : (monthTokens.any (fun m => pyIn m (pyStrip e.text))) = true
          · simp only [h4, if_true]
            exact ih seen acc _
          · simp only [h4, Bool.false_eq_true, if_false]
            by_cases h5 : (locationTokens.any (fun m => pyIn m (pyStrip e.text))) = true
            · simp only [h5, if_true]
              exact ih seen acc _
            · simp only [h5, Bool.false_eq_true, if_false]
              cases hh : e.href with
              | none => exact ih seen acc cur
              | some h =>
                by_cases htag : e.tag = "a"
                · simp only [if_pos htag]
                  by_cases hm : pyIn "meeting" (pyLower h) = true
                  · simp only [hm, if_true]
                    exact ih seen acc _
                  · simp only [hm, Bool.false_eq_true, if_false]
                    exact ih seen acc cur
                · simp only [if_neg htag]
                  exact ih seen acc cur

theorem dedupFirst_sublist : ∀ (cands : List (MKey × Meeting)) (seen : List MKey),
    (dedupFirst seen cands).Sublist cands := by
  intro cands
  induction cands with
  | nil => intro seen; simp [dedupFirst]
  | cons p rest ih =>
    intro seen
    cases p with
    | mk k m =>
      by_cases hk : k ∈ seen
      · simp only [dedupFirst, if_pos hk]
        exact List.Sublist.cons _ (ih seen)
      · simp only [dedupFirst, if_neg hk]
        exact List.Sublist.cons₂ _ (ih (k :: seen))

theorem dedupFirst_filter : ∀ (cands : List (MKey × Meeting)) (seen : List MKey)
    (k : MKey),
    (dedupFirst seen cands).filter (fun p => decide (p.1 = k))
      = if k ∈ seen then []
        else (cands.filter (fun p => decide (p.1 = k))).take 1 := by
  intro cands
  induction cands with
  | nil => intro seen k; simp [dedupFirst]
  | cons p rest ih =>
    intro seen k
    cases p with
    | mk k' m =>
      by_cases hks : k' ∈ seen
      · rw [dedupFirst, if_pos hks, ih]
        by_cases hk : k ∈ seen
        · simp [hk]
        · have hne : k' ≠ k := fun h => hk (h ▸ hks)
          have hd : (decide (k' = k)) = false := by simp [hne]
          simp [hk, List.filter, hd]
      · rw [dedupFirst, if_neg hks]
        by_cases hkk : k' = k
        · subst hkk
          have hnotin : k' ∉ ([] : List MKey) := List.not_mem_nil k'
          simp only [List.filter, decide_True, List.take]
          rw [ih]
          simp [List.mem_cons, hks]
        · simp only [List.filter]
          have hd : (decide ((k', m).1 = k)) = false := by
            simp [hkk]
          rw [hd, ih]
          by_cases hk : k ∈ seen
          · simp [hk, List.mem_cons, hkk]
          · have : ¬ k ∈ (k' :: seen) := by
              simp [List.mem_cons, hks]
              exact ⟨fun h => hkk h.symm, hk⟩
            simp [hk, this]

theorem dedupFirst_keys_nodup : ∀ (cands : List (MKey × Meeting)) (seen : List MKey),
    ((dedupFirst seen cands).map Prod.fst).Nodup
    ∧ ∀ k ∈ (dedupFirst seen cands).map Prod.fst, k ∉ seen := by
  intro cands
  induction cands with
  | nil => intro seen; simp [dedupFirst]
  | cons p rest ih =>
    intro seen
    cases p with
    | mk k' m =>
      by_cases hk : k' ∈ seen
      · simp only [dedupFirst, if_pos hk]
        exact ih seen
      · simp only [dedupFirst, if_neg hk, List.map_cons, List.nodup_cons]
        refine ⟨⟨?_, (ih (k' :: seen)).1⟩, ?_⟩
        · intro hmem
          exact absurd (List.mem_cons_self k' seen) ((ih (k' :: seen)).2 k' hmem)
        · intro k hmem
          cases List.mem_cons.mp hmem with
          | inl he => exact he ▸ hk
          | inr hm =>
            intro hs
            exact (ih (k' :: seen)).2 k hm (List.mem_cons_of_mem _ hs)

/-- C2: the emitted list of `_scrape_meetings` equals the spec-side
deduplication of its raw candidate stream — only the first occurrence per
composite key `(board_name, raw_date_string, details_url)` is emitted, in
candidate order (the emitted list is a sublist of the candidate stream),
its keys are pairwise distinct, and for every key the emitted occurrences
are exactly the first candidate with that key. -/
theorem C2_dedup_first_occurrence (board : String) (pastRows : List TRow)
    (upElems : List Elem) :
    scrape_meetings board pastRows upElems
      = (dedupFirst [] (allCandidates board pastRows upElems)).map Prod.snd
    ∧ ((dedupFirst [] (allCandidates board pastRows upElems)).map Prod.fst).Nodup
    ∧ (∀ k : MKey,
        (dedupFirst [] (allCandidates board pastRows upElems)).filter
            (fun p => decide (p.1 = k))
          = ((allCandidates board pastRows upElems).filter
              (fun p => decide (p.1 = k))).take 1)
    ∧ (dedupFirst [] (allCandidates board pastRows upElems)).Sublist
        (allCandidates board pastRows upElems) := by
  refine ⟨?_, (dedupFirst_keys_nodup _ []).1, ?_, dedupFirst_sublist _ []⟩
  · unfold scrape_meetings allCandidates
    rw [processPastRows_eq]
    by_cases hstop : (pastCandidates board pastRows).2
    · simp [hstop]
    · simp only [hstop, Bool.false_eq_true, if_false]
      rw [processUpcoming_eq]
      rw [dedupFirst_append, List.map_append]
      simp
  · intro k
    rw [dedupFirst_filter]
    simp

theorem travMany_mono {α : Type} (succs : α → List α) :
    ∀ (n : Nat) (l : List α) (m : Nat) (r : List α), n ≤ m →
      travMany succs n l = some r → travMany succs m l = some r := by
  intro n
  induction n with
  | zero =>
    intro l m r _ h
    cases l with
    | nil =>
      simp [travMany] at h
      subst h
      simp [travMany]
    | cons u us => simp [travMany] at h
  | succ n ih =>
    intro l
    induction l with
    | nil =>
      intro m r _ h
      simp [travMany] at h
      subst h
      simp [travMany]
    | cons u us ihl =>
      intro m r hm h
      cases m with
      | zero => omega
      | succ m2 =>
        have hm2 : n ≤ m2 := by omega
        simp only [travMany] at h ⊢
        cases h1 : travMany succs n (succs u) with
        | none => rw [h1] at h; simp at h
        | some l1 =>
          cases h2 : travMany succs (n + 1) us with
          | none => rw [h1, h2] at h; simp at h
          | some l2 =>
            rw [h1, h2] at h
            simp only at h
            rw [ih (succs u) m2 l1 hm2 h1, ihl (m2 + 1) l2 (by omega) h2]
            exact h

theorem travMany_singleton {α : Type} (succs : α → List α) (n : Nat) (u : α)
    (l : List α) (h : travMany succs n (succs u) = some l) :
    travMany succs (n + 1) [u] = some (u :: l) := by
  simp [travMany, h]

theorem travMany_list_merge {α : Type} (succs : α → List α) :
    ∀ l : List α, (∀ c ∈ l, ∃ n r, travMany succs n [c] = some r) →
      ∃ N r, travMany succs N l = some r := by
  intro l
  induction l with
  | nil => exact fun _ => ⟨0, [], by simp [travMany]⟩
  | cons c cs ih =>
    intro h
    obtain ⟨n, r1, hr1⟩ := h c (List.mem_cons_self c cs)
    obtain ⟨N2, r2, hr2⟩ := ih (fun d hd => h d (List.mem_cons_of_mem c hd))
    cases n with
    | zero => simp [travMany] at hr1
    | succ p =>
      simp only [travMany] at hr1
      cases h1 : travMany succs p (succs c) with
      | none => rw [h1] at hr1; simp at hr1
      | some l1 =>
        refine ⟨max p N2 + 1, (c :: l1) ++ (travMany succs (max p N2 + 1) cs).getD [], ?_⟩
        have hc : travMany succs (max p N2) (succs c) = some l1 :=
          travMany_mono succs p (succs c) (max p N2) l1 (Nat.le_max_left p N2) h1
        have hcs : travMany succs (max p N2 + 1) cs = some r2 :=
          travMany_mono succs N2 cs (max p N2 + 1) r2
            (Nat.le_trans (Nat.le_max_right p N2) (Nat.le_succ _)) hr2
        simp only [travMany, hc, hcs]
        simp

theorem travMany_exists_of_wf {α : Type} (succs : α → List α)
    (hwf : WellFounded (fun a b => a ∈ succs b)) (u : α) :
    ∃ n r, travMany succs n [u] = some r := by
  induction u using WellFounded.induction hwf with
  | _ x ihx =>
    obtain ⟨N, r, hNr⟩ := travMany_list_merge succs (succs x) (fun c hc => ihx c hc)
    exact ⟨N + 1, x :: r, travMany_singleton succs N x r hNr⟩

theorem travMany_complete {α : Type} (succs : α → List α) :
    ∀ (n : Nat) (l res : List α), travMany succs n l = some res →
      ∀ u ∈ l, ∀ v, Relation.ReflTransGen (fun a b => b ∈ succs a) u v → v ∈ res := by
  intro n
  induction n with
  | zero =>
    intro l res h
    cases l with
    | nil => intro u hu; simp at hu
    | cons a as => simp [travMany] at h
  | succ n ih =>
    intro l
    induction l with
    | nil => intro res h u hu; simp at hu
    | cons a as ihl =>
      intro res h u hu v hv
      simp only [travMany] at h
      cases h1 : travMany succs n (succs a) with
      | none => rw [h1] at h; simp at h
      | some l1 =>
        cases h2 : travMany succs (n + 1) as with
        | none => rw [h1, h2] at h; simp at h
        | some l2 =>
          rw [h1, h2] at h
          simp only [Option.some.injEq] at h
          subst h
          cases List.mem_cons.mp hu with
          | inl hua =>
            subst hua
            cases hv.cases_head with
            | inl hveq =>
              subst hveq
              simp
            | inr hstep =>
              obtain ⟨c, hc, hcv⟩ := hstep
              have : v ∈ l1 := ih (succs u) l1 h1 c hc v hcv
              simp [this]
          | inr huas =>
            have : v ∈ l2 := ihl l2 h2 u huas v hv
            simp [this]

theorem wf_of_no_cycles {k : Nat} (succs : Fin k → List (Fin k))
    (h : ∀ u, ¬ Relation.TransGen (fun a b => a ∈ succs b) u u) :
    WellFounded (fun a b => a ∈ succs b) := by
  have hwf : WellFounded (Relation.TransGen (fun a b : Fin k => a ∈ succs b)) := by
    haveI : IsIrrefl (Fin k) (Relation.TransGen (fun a b : Fin k => a ∈ succs b)) := ⟨h⟩
    exact Finite.wellFounded_of_trans_of_irrefl _
  have hsub : Subrelation (fun a b : Fin k => a ∈ succs b)
      (Relation.TransGen (fun a b : Fin k => a ∈ succs b)) :=
    fun hab => Relation.TransGen.single hab
  exact hsub.wf hwf

/-- C9: over a finite, acyclic related-meetings link graph, the recursive
traversal of `scrape_meeting` terminates at some finite recursion depth and
its visit list contains every URL reachable from the start; with no depth
bound or visited set in the code, a self-loop makes the recursion exceed
every finite depth — termination indeed rests on the acyclicity
precondition alone. -/
theorem C9_related_traversal_termination :
    (∀ (k : Nat) (succs : Fin k → List (Fin k)),
      (∀ u, ¬ Relation.TransGen (fun a b => a ∈ succs b) u u) →
      ∀ u : Fin k, ∃ n res, travMany succs n [u] = some res ∧
        ∀ v, Relation.ReflTransGen (fun a b => b ∈ succs a) u v → v ∈ res)
    ∧ (∀ n, travMany (fun _ : Fin 1 => [0]) n [0] = none) := by
  constructor
  · intro k succs hacyc u
    obtain ⟨n, r, hr⟩ := travMany_exists_of_wf succs (wf_of_no_cycles succs hacyc) u
    exact ⟨n, r, hr,
      fun v hv => travMany_complete succs n [u] r hr u (List.mem_singleton_self u) v hv⟩
  · intro n
    induction n with
    | zero => simp [travMany]
    | succ n ih => simp [travMany, ih]

theorem C9_related_traversal_termination_witness :
    ∃ n res, travMany (fun _ : Fin 1 => ([] : List (Fin 1))) n [(0 : Fin 1)] = some res
      ∧ ∀ v, Relation.ReflTransGen
          (fun a b => b ∈ (fun _ : Fin 1 => ([] : List (Fin 1))) a) (0 : Fin 1) v →
          v ∈ res := by
  refine C9_related_traversal_termination.1 1 (fun _ => []) ?_ 0
  intro u hc
  cases hc with
  | single h => simp at h
  | tail _ h => simp at h
